import Mathlib

/-!
Shallow embedding of the cat-ball paddle game (`src/main.rs`) over exact
rationals: every `f32` of the source is modelled as a `ℚ`, vector and
rectangle operations are componentwise as in the `glam`/`macroquad` math
types, and each per-frame `update` method becomes a pure state-passing
function.  Rendering, textures and the windowing loop are out of scope.
-/

/-- 2-D vector, the model of `glam::Vec2` (both components exact rationals). -/
structure Vec2 where
  x : ℚ
  y : ℚ
deriving DecidableEq, Repr

/-- Rectangle, the model of `macroquad::math::Rect`: origin plus size. -/
structure Rect where
  x : ℚ
  y : ℚ
  w : ℚ
  h : ℚ
deriving DecidableEq, Repr

instance : Add Vec2 := ⟨fun a b => ⟨a.x + b.x, a.y + b.y⟩⟩
instance : Sub Vec2 := ⟨fun a b => ⟨a.x - b.x, a.y - b.y⟩⟩
instance : Mul Vec2 := ⟨fun a b => ⟨a.x * b.x, a.y * b.y⟩⟩
instance : Div Vec2 := ⟨fun a b => ⟨a.x / b.x, a.y / b.y⟩⟩

/-- `glam` implements `Vec2 += f32` by adding the scalar to BOTH components
(`impl AddAssign<f32> for Vec2`); this models that scalar addition. -/
def Vec2.addScalar (v : Vec2) (s : ℚ) : Vec2 := ⟨v.x + s, v.y + s⟩

/-- `Rect::center`: the midpoint `(x + w/2, y + h/2)`. -/
def Rect.center (r : Rect) : Vec2 := ⟨r.x + r.w / 2, r.y + r.h / 2⟩

/-- `Rect::contains(point)`: inclusive containment test of a point. -/
def Rect.containsPt (r : Rect) (p : Vec2) : Bool :=
  decide (r.x ≤ p.x) && decide (p.x ≤ r.x + r.w) &&
  decide (r.y ≤ p.y) && decide (p.y ≤ r.y + r.h)

/-- `f32::clamp(lo, hi)` for the non-panicking case `lo ≤ hi`:
below `lo` gives `lo`, above `hi` gives `hi`, otherwise unchanged. -/
def clampQ (v lo hi : ℚ) : ℚ :=
  if v < lo then lo else if v > hi then hi else v

-- Constants of `src/main.rs`.

def PAW_ACCELERATION : ℚ := 5
def PAW_FRICTION : ℚ := -0.2
def PAW_SHAPE : Vec2 := ⟨20 / 1.5, 30 / 1.5⟩
def BALL_SHAPE : Vec2 := ⟨10, 10⟩
def BASE_BALL_VELOCITY : ℚ := 0.4
def GAME_SHAPE : Vec2 := ⟨100, 100⟩

/-- `TranslateType`: whether a transform applies the viewport offset. -/
inductive TranslateType where
  | Normal
  | JustScale

/-- `GameArea`: where the 100×100 logical space lives on screen
(the texture field is rendering-only and dropped). -/
structure GameArea where
  rect : Rect
deriving DecidableEq, Repr

/-- `GameArea::update`, as a function of the polled screen size:
a square of side `min(width, height)` centered in the window. -/
def GameArea.update (screenW screenH : ℚ) : GameArea :=
  let min_axis := min screenW screenH
  { rect := { x := screenW / 2 - min_axis / 2
              y := screenH / 2 - min_axis / 2
              w := min_axis
              h := min_axis } }

/-- `GameArea::game_to_screen`. -/
def GameArea.game_to_screen (a : GameArea) (game_point : Vec2)
    (translate_type : TranslateType) : Vec2 :=
  let current_shape : Vec2 := ⟨a.rect.w, a.rect.h⟩
  let offset : Vec2 := ⟨a.rect.x, a.rect.y⟩
  match translate_type with
  | .Normal => ((current_shape / GAME_SHAPE) * game_point) + offset
  | .JustScale => (current_shape / GAME_SHAPE) * game_point

/-- `GameArea::screen_to_game`. -/
def GameArea.screen_to_game (a : GameArea) (screen_point : Vec2) : Vec2 :=
  let current_shape : Vec2 := ⟨a.rect.w, a.rect.h⟩
  let offset : Vec2 := ⟨a.rect.x, a.rect.y⟩
  ((screen_point - offset) / current_shape) * GAME_SHAPE

/-- `PawSide`. -/
inductive PawSide where
  | Left
  | Right
deriving DecidableEq, Repr

/-- `Paw`: paddle state (texture dropped). -/
structure Paw where
  rect : Rect
  velocity : Vec2
  paw_side : PawSide
deriving DecidableEq, Repr

/-- `Paw::new`. -/
def Paw.new (paw_side : PawSide) : Paw :=
  { rect := { x := match paw_side with
              | .Left => 25
              | .Right => 75 - PAW_SHAPE.x
              y := GAME_SHAPE.y - PAW_SHAPE.y
              w := PAW_SHAPE.x
              h := PAW_SHAPE.y }
    velocity := ⟨0, 0⟩
    paw_side := paw_side }

/-- The `touches.retain(..)` predicate of `Paw::update`: keep a
logical-space touch iff it is strictly inside `(0, 100)` on x and on
this paddle's half of the arena. -/
def keepTouch (side : PawSide) (touch : Vec2) : Bool :=
  decide (touch.x > 0) && decide (touch.x < GAME_SHAPE.x) &&
  (match side with
   | .Left => decide (touch.x < GAME_SHAPE.x / 2)
   | .Right => decide (touch.x > GAME_SHAPE.x / 2))

/-- The retained touch list of `Paw::update`: raw screen touches mapped
through `screen_to_game`, then filtered by `keepTouch`. -/
def retainedTouches (side : PawSide) (area : GameArea)
    (raw : List Vec2) : List Vec2 :=
  (raw.map area.screen_to_game).filter (keepTouch side)

/-- The closest-touch scan of `Paw::update`, processing touches left to
right with the running `smallest_distance` (`none` models the initial
`f32::INFINITY`) and the running `paw_acceleration` accumulator.
A touch strictly closer than the running minimum updates the minimum and,
when it is off-center, overwrites the accumulator with
`±PAW_ACCELERATION / (1 / (distance / GAME_SHAPE.x))`; a touch exactly at
the center updates only the minimum. -/
def pawAccum (c : ℚ) : List Vec2 → Option ℚ → ℚ → ℚ
  | [], _, a => a
  | t :: ts, sm, a =>
    let distance := |t.x - c|
    if (match sm with | none => true | some s => decide (distance < s)) then
      pawAccum c ts (some distance)
        (if t.x > c then PAW_ACCELERATION / (1 / (distance / GAME_SHAPE.x))
         else if t.x < c then -PAW_ACCELERATION / (1 / (distance / GAME_SHAPE.x))
         else a)
    else
      pawAccum c ts sm a

/-- The touch contribution to the paddle acceleration for one frame. -/
def touchAccel (ts : List Vec2) (c : ℚ) : ℚ := pawAccum c ts none 0

/-- The total `paw_acceleration` of one `Paw::update` frame: touch
contribution plus the friction term `velocity.x * PAW_FRICTION`. -/
def pawAccelOf (p : Paw) (area : GameArea) (raw : List Vec2) : ℚ :=
  touchAccel (retainedTouches p.paw_side area raw) p.rect.center.x
    + p.velocity.x * PAW_FRICTION

/-- The legal lane `[lo, hi]` a paddle of width `w` is clamped to. -/
def pawLane (side : PawSide) (w : ℚ) : ℚ × ℚ :=
  match side with
  | .Left => (0, GAME_SHAPE.x / 2 - w)
  | .Right => (GAME_SHAPE.x / 2, GAME_SHAPE.x - w)

/-- `Paw::update`: compute the acceleration from the retained touches and
friction, add it to the velocity (a `glam` scalar add, hitting BOTH
components), step `rect.x` by `velocity.x + 0.5 * paw_acceleration`
using the updated velocity, then clamp `rect.x` to the paddle's lane. -/
def Paw.update (p : Paw) (area : GameArea) (raw : List Vec2) : Paw :=
  let paw_acceleration := pawAccelOf p area raw
  let velocity := p.velocity.addScalar paw_acceleration
  let newX := p.rect.x + velocity.x + 0.5 * paw_acceleration
  let lane := pawLane p.paw_side p.rect.w
  { p with
    velocity := velocity
    rect := { p.rect with x := clampQ newX lane.1 lane.2 } }

/-- `Ball` state (texture dropped). -/
structure Ball where
  rect : Rect
  velocity : Vec2
deriving DecidableEq, Repr

/-- `Ball::new`: centered 10×10 rectangle, base velocity on both axes. -/
def Ball.new : Ball :=
  { rect := { x := GAME_SHAPE.x / 2 - BALL_SHAPE.x / 2
              y := GAME_SHAPE.y / 2 - BALL_SHAPE.y / 2
              w := BALL_SHAPE.x
              h := BALL_SHAPE.y }
    velocity := ⟨BASE_BALL_VELOCITY, BASE_BALL_VELOCITY⟩ }

/-- The dynamic ball speed of `Ball::update`:
`BASE + BASE * (score+1)/100`. -/
def ballVelocityOf (score : ℕ) : ℚ :=
  BASE_BALL_VELOCITY + BASE_BALL_VELOCITY * ((score + 1 : ℕ) / 100 : ℚ)

/-- The collision phase of `Ball::update`: the three independent wall
checks, the per-paddle center-containment checks (each incrementing the
score when it fires), then the miss reset.  Returns the ball as it stands
just before position integration, together with the score. -/
def Ball.collide (b : Ball) (paw_locations : List Rect) (score : ℕ) :
    Ball × ℕ :=
  let ball_velocity := ballVelocityOf score
  -- wall checks, each independent; later x-assignments overwrite earlier
  let vxs1 : ℚ × ℕ :=
    if b.rect.x < 0 then (ball_velocity, score + 1) else (b.velocity.x, score)
  let vxs2 : ℚ × ℕ :=
    if b.rect.x + b.rect.w > GAME_SHAPE.x then (-ball_velocity, vxs1.2 + 1)
    else (vxs1.1, vxs1.2)
  let vys1 : ℚ × ℕ :=
    if b.rect.y < 0 then (ball_velocity, vxs2.2 + 1) else (b.velocity.y, vxs2.2)
  -- paddle loop: the ball's rect is not mutated inside the loop
  let vys2 : ℚ × ℕ :=
    paw_locations.foldl
      (fun acc paw_location =>
        if b.rect.containsPt paw_location.center then (-ball_velocity, acc.2 + 1)
        else acc)
      vys1
  -- miss check: reset position, velocity and score
  if b.rect.y > GAME_SHAPE.y then
    ({ rect := { b.rect with x := GAME_SHAPE.x / 2 - BALL_SHAPE.x / 2
                             y := GAME_SHAPE.y / 2 - BALL_SHAPE.y / 2 }
       velocity := ⟨BASE_BALL_VELOCITY, BASE_BALL_VELOCITY⟩ }, 0)
  else ({ rect := b.rect, velocity := ⟨vxs2.1, vys2.1⟩ }, vys2.2)

/-- The final, unconditional position integration of `Ball::update`. -/
def Ball.integrate (b : Ball) : Ball :=
  { b with rect := { b.rect with x := b.rect.x + b.velocity.x
                                 y := b.rect.y + b.velocity.y } }

/-- `Ball::update`: the collision/scoring phase followed by the
unconditional position integration. -/
def Ball.update (b : Ball) (paw_locations : List Rect) (score : ℕ) :
    Ball × ℕ :=
  ((Ball.collide b paw_locations score).1.integrate,
    (Ball.collide b paw_locations score).2)

/-- `Scores`. -/
structure Scores where
  score : ℕ
  best_score : ℕ
deriving DecidableEq, Repr

/-- `Scores::new`. -/
def Scores.new : Scores := { score := 0, best_score := 0 }

/-- `Scores::update`: raise the best score to the current score when the
current score exceeds it. -/
def Scores.update (s : Scores) : Scores :=
  if s.score > s.best_score then { s with best_score := s.score } else s

-- Derived helpers used to state the claims.

/-- Running nearest-touch tracker: starting from candidate `m`, a later
touch replaces the candidate only when its x-distance to `c` is STRICTLY
smaller (so on ties the earlier touch wins), exactly as the source loop
updates `smallest_distance`. -/
def firstMinAux (c : ℚ) (m : ℚ) : List Vec2 → ℚ
  | [] => m
  | t :: ts => firstMinAux c (if |t.x - c| < |m - c| then t.x else m) ts

/-- The x-coordinate of the first touch attaining the minimal x-distance
to `c` (earlier touches win ties): the "nearest touch" of the claim. -/
def firstMinX (c : ℚ) : List Vec2 → Option ℚ
  | [] => none
  | t :: ts => some (firstMinAux c t.x ts)

/-- The acceleration the closest-touch rule assigns to an off-center
nearest touch at x-coordinate `m`: sign toward the touch, magnitude
`PAW_ACCELERATION * distance / 100`. -/
def accelToward (c m : ℚ) : ℚ :=
  if m > c then PAW_ACCELERATION / (1 / (|m - c| / GAME_SHAPE.x))
  else -PAW_ACCELERATION / (1 / (|m - c| / GAME_SHAPE.x))

/-- Number of wall-bounce conditions of `Ball::update` that hold for a
ball rectangle. -/
def wallHits (r : Rect) : ℕ :=
  (if r.x < 0 then 1 else 0) + (if r.x + r.w > GAME_SHAPE.x then 1 else 0)
    + (if r.y < 0 then 1 else 0)

/-- Number of paddles whose center the ball's rectangle contains. -/
def pawHits (r : Rect) (paw_locations : List Rect) : ℕ :=
  (paw_locations.filter (fun p => r.containsPt p.center)).length

/-- Iterate `Paw.update` over a sequence of frames, each frame supplying
the game area and the raw touch list of that frame. -/
def runPaw (p : Paw) (frames : List (GameArea × List Vec2)) : Paw :=
  frames.foldl (fun q f => q.update f.1 f.2) p

/-- Iterate frames on the score state: each frame the ball logic leaves
some current score (here an arbitrary value), then `Scores.update` runs. -/
def runScores (s : Scores) (frames : List ℕ) : Scores :=
  frames.foldl (fun q c => Scores.update { q with score := c }) s

-- Componentwise unfolding lemmas for the Vec2 operations.

theorem Vec2.add_def (a b : Vec2) : a + b = ⟨a.x + b.x, a.y + b.y⟩ := rfl

theorem Vec2.sub_def (a b : Vec2) : a - b = ⟨a.x - b.x, a.y - b.y⟩ := rfl

theorem Vec2.mul_def (a b : Vec2) : a * b = ⟨a.x * b.x, a.y * b.y⟩ := rfl

theorem Vec2.div_def (a b : Vec2) : a / b = ⟨a.x / b.x, a.y / b.y⟩ := rfl

/-- C1: for every logical point `p`, when the viewport rectangle has
nonzero width and height, `screen_to_game (game_to_screen p Normal)`
returns `p` (exactly, in the rational model of the arithmetic). -/
theorem screen_to_game_game_to_screen (a : GameArea) (p : Vec2)
    (hw : a.rect.w ≠ 0) (hh : a.rect.h ≠ 0) :
    a.screen_to_game (a.game_to_screen p .Normal) = p := by
  cases p with
  | mk px py =>
    simp only [GameArea.game_to_screen, GameArea.screen_to_game, GAME_SHAPE,
      Vec2.add_def, Vec2.sub_def, Vec2.mul_def, Vec2.div_def, Vec2.mk.injEq]
    constructor <;> · field_simp; ring

/-- Witness for C1 at the viewport `(3, 4, 7, 9)` and point `(13, 29)`. -/
theorem screen_to_game_game_to_screen_witness :
    (⟨⟨3, 4, 7, 9⟩⟩ : GameArea).rect.w ≠ 0 ∧
    (⟨⟨3, 4, 7, 9⟩⟩ : GameArea).rect.h ≠ 0 ∧
    GameArea.screen_to_game ⟨⟨3, 4, 7, 9⟩⟩
      (GameArea.game_to_screen ⟨⟨3, 4, 7, 9⟩⟩ ⟨13, 29⟩ .Normal) = ⟨13, 29⟩ :=
  ⟨by norm_num, by norm_num,
    screen_to_game_game_to_screen ⟨⟨3, 4, 7, 9⟩⟩ ⟨13, 29⟩
      (by norm_num) (by norm_num)⟩

/-- C8: `GameArea::update` yields a square of side `min(width, height)`
whose origin is `((width − side)/2, (height − side)/2)`. -/
theorem game_area_centered_square (w h : ℚ) :
    (GameArea.update w h).rect.w = min w h ∧
    (GameArea.update w h).rect.h = min w h ∧
    (GameArea.update w h).rect.x = (w - min w h) / 2 ∧
    (GameArea.update w h).rect.y = (h - min w h) / 2 := by
  refine ⟨rfl, rfl, ?_, ?_⟩ <;> · simp only [GameArea.update]; ring

/-- C9: each `Scores::update` sets the best score to the maximum of its
previous value and the current score, the best score never decreases
across an update, and hence it is non-decreasing across any session of
frames whatever current scores (including resets to 0) those frames
leave behind. -/
theorem best_score_is_running_max :
    (∀ s : Scores, (Scores.update s).best_score = max s.best_score s.score) ∧
    (∀ s : Scores, s.best_score ≤ (Scores.update s).best_score) ∧
    (∀ (s : Scores) (frames : List ℕ),
      s.best_score ≤ (runScores s frames).best_score) := by
  have hmax : ∀ s : Scores, (Scores.update s).best_score = max s.best_score s.score := by
    intro s
    simp only [Scores.update]
    split_ifs with h
    · simp [Nat.max_eq_right (Nat.le_of_lt h)]
    · simp [Nat.max_eq_left (Nat.le_of_not_lt h)]
  have hle : ∀ s : Scores, s.best_score ≤ (Scores.update s).best_score := by
    intro s; rw [hmax]; exact le_max_left _ _
  refine ⟨hmax, hle, ?_⟩
  intro s frames
  induction frames generalizing s with
  | nil => exact le_refl _
  | cons c rest ih =>
    calc s.best_score ≤ (Scores.update { s with score := c }).best_score :=
          hle { s with score := c }
      _ ≤ (runScores (Scores.update { s with score := c }) rest).best_score := ih _
      _ = (runScores s (c :: rest)).best_score := rfl

/-- Amended C7: `Paw::update` leaves `rect.y`, `rect.w`, `rect.h`
unchanged; `velocity.x` changes by exactly the computed acceleration, and
so does `velocity.y` (the source adds the scalar acceleration to the whole
`Vec2`, which `glam` applies to both components); `rect.x` becomes the
pre-clamp value `rect.x + velocity.x + 0.5·acceleration` (with the updated
velocity) clamped to the paddle's lane. -/
theorem paw_update_components (p : Paw) (area : GameArea) (raw : List Vec2) :
    (p.update area raw).velocity.x = p.velocity.x + pawAccelOf p area raw ∧
    (p.update area raw).velocity.y = p.velocity.y + pawAccelOf p area raw ∧
    (p.update area raw).rect.y = p.rect.y ∧
    (p.update area raw).rect.w = p.rect.w ∧
    (p.update area raw).rect.h = p.rect.h ∧
    (p.update area raw).rect.x =
      clampQ (p.rect.x + (p.velocity.x + pawAccelOf p area raw)
          + 0.5 * pawAccelOf p area raw)
        (pawLane p.paw_side p.rect.w).1 (pawLane p.paw_side p.rect.w).2 := by
  refine ⟨rfl, rfl, rfl, rfl, rfl, ?_⟩
  simp only [Paw.update, Vec2.addScalar, clampQ]

/-- Counterexample to C7 as stated: a left paddle at its initial state,
under the identity viewport and a single touch at logical x = 40, gets a
nonzero acceleration, and `velocity.y` changes from 0 to 5/12. -/
theorem paw_update_velocity_y_changes :
    ((Paw.new .Left).update ⟨⟨0, 0, 100, 100⟩⟩ [⟨40, 50⟩]).velocity.y = 5 / 12 ∧
    (Paw.new .Left).velocity.y = 0 ∧ ((5 : ℚ) / 12 ≠ 0) := by
  refine ⟨?_, rfl, by norm_num⟩
  norm_num [Paw.update, Paw.new, pawAccelOf, retainedTouches, touchAccel, pawAccum,
    keepTouch, GameArea.screen_to_game, Rect.center, PAW_SHAPE, PAW_FRICTION,
    PAW_ACCELERATION, GAME_SHAPE, Vec2.addScalar, Vec2.add_def, Vec2.sub_def,
    Vec2.mul_def, Vec2.div_def, List.filter,
    abs_of_nonneg (show (0 : ℚ) ≤ 25 / 3 by norm_num)]

-- Lane clamping for the paddles (claim C2).

theorem clampQ_mem (v lo hi : ℚ) (h : lo ≤ hi) :
    lo ≤ clampQ v lo hi ∧ clampQ v lo hi ≤ hi := by
  unfold clampQ
  split_ifs with h1 h2
  · exact ⟨le_refl _, h⟩
  · exact ⟨h, le_refl _⟩
  · exact ⟨le_of_not_lt h1, le_of_not_gt h2⟩

theorem paw_update_in_lane (p : Paw) (area : GameArea) (raw : List Vec2)
    (h : p.rect.w ≤ 50) :
    (pawLane p.paw_side p.rect.w).1 ≤ (p.update area raw).rect.x ∧
    (p.update area raw).rect.x ≤ (pawLane p.paw_side p.rect.w).2 := by
  have hlo : (pawLane p.paw_side p.rect.w).1 ≤ (pawLane p.paw_side p.rect.w).2 := by
    cases hside : p.paw_side <;> simp [pawLane, GAME_SHAPE] <;> linarith
  simp only [Paw.update]
  exact clampQ_mem _ _ _ hlo

theorem runPaw_invariant (side : PawSide) (p : Paw)
    (frames : List (GameArea × List Vec2))
    (hside : p.paw_side = side) (hw : p.rect.w = PAW_SHAPE.x)
    (hx : (pawLane side PAW_SHAPE.x).1 ≤ p.rect.x ∧
      p.rect.x ≤ (pawLane side PAW_SHAPE.x).2) :
    (runPaw p frames).paw_side = side ∧
    (runPaw p frames).rect.w = PAW_SHAPE.x ∧
    (pawLane side PAW_SHAPE.x).1 ≤ (runPaw p frames).rect.x ∧
    (runPaw p frames).rect.x ≤ (pawLane side PAW_SHAPE.x).2 := by
  induction frames generalizing p with
  | nil => exact ⟨hside, hw, hx.1, hx.2⟩
  | cons f rest ih =>
    have hupd := paw_update_in_lane p f.1 f.2
      (by rw [hw]; norm_num [PAW_SHAPE])
    rw [hside, hw] at hupd
    exact ih (p.update f.1 f.2) hside hw ⟨hupd.1, hupd.2⟩

/-- C2: after any single `Paw::update` (for any prior state whose width
keeps the clamp well-formed, `w ≤ 50`), the left paddle's `rect.x` lies in
`[0, 50 − w]` and the right paddle's in `[50, 100 − w]`; and iterating
updates from the initial `Paw::new` states keeps both paddles inside
those bounds after any sequence of frames. -/
theorem paw_stays_in_lane :
    (∀ (p : Paw) (area : GameArea) (raw : List Vec2), p.rect.w ≤ 50 →
      (p.paw_side = .Left →
        0 ≤ (p.update area raw).rect.x ∧
        (p.update area raw).rect.x ≤ 50 - p.rect.w) ∧
      (p.paw_side = .Right →
        50 ≤ (p.update area raw).rect.x ∧
        (p.update area raw).rect.x ≤ 100 - p.rect.w)) ∧
    (∀ frames : List (GameArea × List Vec2),
      (0 ≤ (runPaw (Paw.new .Left) frames).rect.x ∧
        (runPaw (Paw.new .Left) frames).rect.x ≤
          50 - (runPaw (Paw.new .Left) frames).rect.w) ∧
      (50 ≤ (runPaw (Paw.new .Right) frames).rect.x ∧
        (runPaw (Paw.new .Right) frames).rect.x ≤
          100 - (runPaw (Paw.new .Right) frames).rect.w)) := by
  constructor
  · intro p area raw h
    constructor
    · intro hs
      have hin := paw_update_in_lane p area raw h
      rw [hs] at hin
      norm_num [pawLane, GAME_SHAPE] at hin
      exact hin
    · intro hs
      have hin := paw_update_in_lane p area raw h
      rw [hs] at hin
      norm_num [pawLane, GAME_SHAPE] at hin
      exact hin
  · intro frames
    constructor
    · have hinv := runPaw_invariant .Left (Paw.new .Left) frames rfl rfl
        (by norm_num [Paw.new, pawLane, PAW_SHAPE, GAME_SHAPE])
      rw [hinv.2.1]
      have hx := hinv.2.2
      norm_num [pawLane, GAME_SHAPE, PAW_SHAPE] at hx ⊢
      exact hx
    · have hinv := runPaw_invariant .Right (Paw.new .Right) frames rfl rfl
        (by norm_num [Paw.new, pawLane, PAW_SHAPE, GAME_SHAPE])
      rw [hinv.2.1]
      have hx := hinv.2.2
      norm_num [pawLane, GAME_SHAPE, PAW_SHAPE] at hx ⊢
      exact hx

/-- Witness for C2 at the initial left paddle, identity viewport and no
touches. -/
theorem paw_stays_in_lane_witness :
    (Paw.new .Left).rect.w ≤ 50 ∧
    (0 ≤ ((Paw.new .Left).update ⟨⟨0, 0, 100, 100⟩⟩ []).rect.x ∧
      ((Paw.new .Left).update ⟨⟨0, 0, 100, 100⟩⟩ []).rect.x ≤
        50 - (Paw.new .Left).rect.w) :=
  ⟨by norm_num [Paw.new, PAW_SHAPE],
    (paw_stays_in_lane.1 (Paw.new .Left) ⟨⟨0, 0, 100, 100⟩⟩ []
      (by norm_num [Paw.new, PAW_SHAPE])).1 rfl⟩

-- Ball lemmas (claims C3, C4, C5, C10).

theorem snd_ite {α β : Type} (c : Prop) [Decidable c] (a b : α × β) :
    (if c then a else b).2 = if c then a.2 else b.2 := by
  split_ifs <;> rfl

theorem ball_collide_miss (b : Ball) (paws : List Rect) (score : ℕ)
    (hy : b.rect.y > 100) :
    Ball.collide b paws score =
      (⟨⟨45, 45, b.rect.w, b.rect.h⟩,
        ⟨BASE_BALL_VELOCITY, BASE_BALL_VELOCITY⟩⟩, 0) := by
  have hy' : b.rect.y > GAME_SHAPE.y := by simpa [GAME_SHAPE] using hy
  simp only [Ball.collide, if_pos hy']
  norm_num [GAME_SHAPE, BALL_SHAPE]

theorem foldl_paw_score (r : Rect) (bv : ℚ) (paws : List Rect) (vs : ℚ × ℕ) :
    (paws.foldl
      (fun acc paw_location =>
        if r.containsPt paw_location.center then (-bv, acc.2 + 1) else acc)
      vs).2 = vs.2 + pawHits r paws := by
  induction paws generalizing vs with
  | nil => simp [pawHits]
  | cons p rest ih =>
    cases hb : r.containsPt p.center with
    | true =>
      simp only [List.foldl_cons, hb, if_true]
      rw [ih ((-bv, vs.2 + 1))]
      simp [pawHits, List.filter_cons, hb]
      omega
    | false =>
      simp only [List.foldl_cons, hb, Bool.false_eq_true, if_false]
      rw [ih vs]
      simp [pawHits, List.filter_cons, hb]

/-- C5: the wall checks and the per-paddle checks of `Ball::update` are
independent — outside the miss case the score grows by exactly the number
of conditions that held — and concretely a ball past both the left and
the top edge gains 2 in a single update. -/
theorem ball_score_counts :
    (∀ (b : Ball) (paws : List Rect) (score : ℕ),
      (b.update paws score).2 =
        if b.rect.y > 100 then 0
        else score + wallHits b.rect + pawHits b.rect paws) ∧
    (Ball.update ⟨⟨-1, -1, 10, 10⟩, ⟨0, 0⟩⟩ [] 0).2 = 2 := by
  have hgen : ∀ (b : Ball) (paws : List Rect) (score : ℕ),
      (b.update paws score).2 =
        if b.rect.y > 100 then 0
        else score + wallHits b.rect + pawHits b.rect paws := by
    intro b paws score
    show (Ball.collide b paws score).2 = _
    simp only [Ball.collide]
    rw [foldl_paw_score]
    simp only [snd_ite, GAME_SHAPE, wallHits]
    split_ifs <;> omega
  refine ⟨hgen, ?_⟩
  rw [hgen]
  norm_num [wallHits, pawHits, GAME_SHAPE]

/-- C10: position integration is the unconditional last step of
`Ball::update`; on a miss frame (start `rect.y > 100`) the collision
phase leaves the ball at `(45, 45)` with velocity `(0.4, 0.4)`, and the
integration immediately adds that velocity, so the update ends at
`(45.4, 45.4)`. -/
theorem ball_update_integration_last (b : Ball) (paws : List Rect)
    (score : ℕ) :
    b.update paws score =
      ((Ball.collide b paws score).1.integrate,
        (Ball.collide b paws score).2) ∧
    (b.rect.y > 100 →
      (Ball.collide b paws score).1.rect.x = 45 ∧
      (Ball.collide b paws score).1.rect.y = 45 ∧
      (Ball.collide b paws score).1.velocity = ⟨0.4, 0.4⟩ ∧
      (b.update paws score).1.rect.x = 45.4 ∧
      (b.update paws score).1.rect.y = 45.4) := by
  refine ⟨rfl, fun hy => ?_⟩
  simp only [Ball.update, ball_collide_miss b paws score hy, Ball.integrate]
  norm_num [BASE_BALL_VELOCITY]

/-- Witness for C10 at a concrete missed ball. -/
theorem ball_update_integration_last_witness :
    ((⟨⟨50, 102, 10, 10⟩, ⟨1, 2⟩⟩ : Ball).rect.y > 100) ∧
    ((⟨⟨50, 102, 10, 10⟩, ⟨1, 2⟩⟩ : Ball).update [⟨25, 80, 40 / 3, 20⟩] 7).1.rect.x
      = 45.4 :=
  ⟨by norm_num,
    ((ball_update_integration_last ⟨⟨50, 102, 10, 10⟩, ⟨1, 2⟩⟩
      [⟨25, 80, 40 / 3, 20⟩] 7).2 (by norm_num)).2.2.2.1⟩

/-- Amended C3: the miss condition of `Ball::update` is `rect.y > 100`
(the top edge past the bottom), not `y + h > 100`; when it fires on a
10×10 ball, the reset to `(45, 45)` with velocity `(0.4, 0.4)` and score
0 is followed by the unconditional integration step, so the rectangle
ends the update at `(45.4, 45.4)` with size 10×10, velocity `(0.4, 0.4)`
and score 0, regardless of the prior score. -/
theorem ball_miss_resets (b : Ball) (paws : List Rect) (score : ℕ)
    (hy : b.rect.y > 100) (hw : b.rect.w = 10) (hh : b.rect.h = 10) :
    (b.update paws score).1.rect = ⟨45.4, 45.4, 10, 10⟩ ∧
    (b.update paws score).1.velocity = ⟨0.4, 0.4⟩ ∧
    (b.update paws score).2 = 0 := by
  simp only [Ball.update, ball_collide_miss b paws score hy, Ball.integrate]
  norm_num [BASE_BALL_VELOCITY, hw, hh]

/-- Witness for the amended C3 at a concrete missed ball. -/
theorem ball_miss_resets_witness :
    ((⟨⟨45, 101, 10, 10⟩, ⟨0, 0⟩⟩ : Ball).rect.y > 100) ∧
    ((⟨⟨45, 101, 10, 10⟩, ⟨0, 0⟩⟩ : Ball).rect.w = 10) ∧
    ((⟨⟨45, 101, 10, 10⟩, ⟨0, 0⟩⟩ : Ball).rect.h = 10) ∧
    ((⟨⟨45, 101, 10, 10⟩, ⟨0, 0⟩⟩ : Ball).update [] 5).1.rect = ⟨45.4, 45.4, 10, 10⟩ ∧
    ((⟨⟨45, 101, 10, 10⟩, ⟨0, 0⟩⟩ : Ball).update [] 5).2 = 0 := by
  have h := ball_miss_resets ⟨⟨45, 101, 10, 10⟩, ⟨0, 0⟩⟩ [] 5 (by norm_num) rfl rfl
  exact ⟨by norm_num, rfl, rfl, h.1, h.2.2⟩

/-- Counterexample to C3 as stated: a 10×10 ball at `y = 95` satisfies
`y + h > 100` yet is not reset (a prior score of 5 survives the update);
and a ball that IS reset (here from `y = 101`) ends the update at
`x = 45.4`, not at 45. -/
theorem ball_miss_claim_false :
    ((95 : ℚ) + 10 > 100 ∧
      (Ball.update ⟨⟨45, 95, 10, 10⟩, ⟨0, 0⟩⟩ [] 5).2 = 5 ∧ (5 : ℕ) ≠ 0) ∧
    ((101 : ℚ) + 10 > 100 ∧
      (Ball.update ⟨⟨45, 101, 10, 10⟩, ⟨0, 0⟩⟩ [] 5).1.rect.x = 45.4 ∧
      (45.4 : ℚ) ≠ 45) := by
  constructor
  · refine ⟨by norm_num, ?_, by norm_num⟩
    norm_num [Ball.update, Ball.collide, Ball.integrate, ballVelocityOf,
      GAME_SHAPE, BALL_SHAPE, BASE_BALL_VELOCITY]
  · refine ⟨by norm_num, ?_, by norm_num⟩
    norm_num [Ball.update, Ball.collide, Ball.integrate, ballVelocityOf,
      GAME_SHAPE, BALL_SHAPE, BASE_BALL_VELOCITY]

/-- Counterexample to C4 as stated: with the ball exactly at `(0, 50)`
(left edge equal to 0, not below it) the strict wall check `x < 0` does
not fire, so one update leaves `velocity.x = −0.4` and the score 0 — not
`+0.404` and 1. -/
theorem ball_bounce_at_zero_claim_false :
    (Ball.update ⟨⟨0, 50, 10, 10⟩, ⟨-0.4, 0⟩⟩
      [(Paw.new .Left).rect, (Paw.new .Right).rect] 0).1.velocity.x = -0.4 ∧
    (Ball.update ⟨⟨0, 50, 10, 10⟩, ⟨-0.4, 0⟩⟩
      [(Paw.new .Left).rect, (Paw.new .Right).rect] 0).2 = 0 ∧
    ((-0.4 : ℚ) ≠ 0.404) ∧ ((0 : ℕ) ≠ 1) := by
  refine ⟨?_, ?_, by norm_num, by norm_num⟩ <;>
  · norm_num [Ball.update, Ball.collide, Ball.integrate, ballVelocityOf,
      Paw.new, Rect.containsPt, Rect.center, GAME_SHAPE, BALL_SHAPE,
      BASE_BALL_VELOCITY, PAW_SHAPE]

/-- Amended C4: starting from `(0, 50)` with velocity `(−0.4, 0)` and
score 0, the first update only moves the ball to `(−0.4, 50)`; the bounce
fires on the SECOND update, once the left edge is strictly below 0, and
that update sets `velocity.x = +0.404` (the dynamic speed
`0.4 + 0.4·(0+1)/100`) and the score to 1. -/
theorem ball_bounce_after_crossing :
    (Ball.update ⟨⟨0, 50, 10, 10⟩, ⟨-0.4, 0⟩⟩
      [(Paw.new .Left).rect, (Paw.new .Right).rect] 0).1 =
      ⟨⟨-0.4, 50, 10, 10⟩, ⟨-0.4, 0⟩⟩ ∧
    (Ball.update ⟨⟨0, 50, 10, 10⟩, ⟨-0.4, 0⟩⟩
      [(Paw.new .Left).rect, (Paw.new .Right).rect] 0).2 = 0 ∧
    (Ball.update ⟨⟨-0.4, 50, 10, 10⟩, ⟨-0.4, 0⟩⟩
      [(Paw.new .Left).rect, (Paw.new .Right).rect] 0).1.velocity.x = 0.404 ∧
    (Ball.update ⟨⟨-0.4, 50, 10, 10⟩, ⟨-0.4, 0⟩⟩
      [(Paw.new .Left).rect, (Paw.new .Right).rect] 0).2 = 1 := by
  refine ⟨?_, ?_, ?_, ?_⟩ <;>
  · norm_num [Ball.update, Ball.collide, Ball.integrate, ballVelocityOf,
      Paw.new, Rect.containsPt, Rect.center, GAME_SHAPE, BALL_SHAPE,
      BASE_BALL_VELOCITY, PAW_SHAPE]

-- The closest-touch scan (claim C6).

theorem pawAccum_stale (c : ℚ) (ts : List Vec2) (s a : ℚ)
    (h : ∀ t ∈ ts, s ≤ |t.x - c|) : pawAccum c ts (some s) a = a := by
  induction ts generalizing a with
  | nil => rfl
  | cons t rest ih =>
    have hts : ¬ (|t.x - c| < s) := not_lt.2 (h t (List.mem_cons_self t rest))
    simp only [pawAccum, hts, decide_False, Bool.false_eq_true, if_false]
    exact ih a (fun u hu => h u (List.mem_cons_of_mem t hu))

theorem firstMinAux_center (c : ℚ) (ts : List Vec2) :
    firstMinAux c c ts = c := by
  induction ts with
  | nil => rfl
  | cons t rest ih =>
    simp only [firstMinAux, sub_self, abs_zero]
    rw [if_neg (not_lt.2 (abs_nonneg _)), ih]

theorem firstMinAux_min (c : ℚ) (ts : List Vec2) : ∀ m : ℚ,
    |firstMinAux c m ts - c| ≤ |m - c| ∧
    ∀ t ∈ ts, |firstMinAux c m ts - c| ≤ |t.x - c| := by
  induction ts with
  | nil => exact fun m => ⟨le_refl _, fun t ht => absurd ht (List.not_mem_nil t)⟩
  | cons t rest ih =>
    intro m
    simp only [firstMinAux]
    by_cases hlt : |t.x - c| < |m - c|
    · rw [if_pos hlt]
      refine ⟨le_trans (ih t.x).1 (le_of_lt hlt), fun u hu => ?_⟩
      rcases List.mem_cons.1 hu with rfl | hu'
      · exact (ih u.x).1
      · exact (ih t.x).2 u hu'
    · rw [if_neg hlt]
      refine ⟨(ih m).1, fun u hu => ?_⟩
      rcases List.mem_cons.1 hu with rfl | hu'
      · exact le_trans (ih m).1 (not_lt.1 hlt)
      · exact (ih m).2 u hu'

/-- The nearest retained touch (as tracked by `firstMinX`) is a touch of
minimal x-distance to the center among the whole list. -/
theorem firstMinX_min (c : ℚ) (ts : List Vec2) (m : ℚ)
    (h : firstMinX c ts = some m) : ∀ t ∈ ts, |m - c| ≤ |t.x - c| := by
  cases ts with
  | nil => simp [firstMinX] at h
  | cons t rest =>
    simp only [firstMinX, Option.some.injEq] at h
    subst h
    intro u hu
    rcases List.mem_cons.1 hu with rfl | hu'
    · exact (firstMinAux_min c rest u.x).1
    · exact (firstMinAux_min c rest t.x).2 u hu'

theorem pawStep_accel (c : ℚ) (t : Vec2) (a : ℚ) (h : t.x ≠ c) :
    (if t.x > c then PAW_ACCELERATION / (1 / (|t.x - c| / GAME_SHAPE.x))
     else if t.x < c then -PAW_ACCELERATION / (1 / (|t.x - c| / GAME_SHAPE.x))
     else a) = accelToward c t.x := by
  rcases lt_or_gt_of_ne h with hlt | hgt
  · rw [if_neg (not_lt.2 (le_of_lt hlt)), if_pos hlt, accelToward,
      if_neg (not_lt.2 (le_of_lt hlt))]
  · rw [if_pos hgt, accelToward, if_pos hgt]

theorem pawAccum_tracks (c : ℚ) (ts : List Vec2) : ∀ (m a : ℚ),
    (m ≠ c → a = accelToward c m) →
    firstMinAux c m ts ≠ c →
    pawAccum c ts (some |m - c|) a = accelToward c (firstMinAux c m ts) := by
  induction ts with
  | nil =>
    intro m a ha hne
    simp only [firstMinAux] at hne ⊢
    exact ha hne
  | cons t rest ih =>
    intro m a ha hne
    simp only [firstMinAux] at hne ⊢
    by_cases hlt : |t.x - c| < |m - c|
    · rw [if_pos hlt] at hne ⊢
      by_cases htc : t.x = c
      · exact absurd (htc ▸ firstMinAux_center c rest) hne
      · have hstep : pawAccum c (t :: rest) (some |m - c|) a =
            pawAccum c rest (some |t.x - c|)
              (if t.x > c then PAW_ACCELERATION / (1 / (|t.x - c| / GAME_SHAPE.x))
               else if t.x < c then
                 -PAW_ACCELERATION / (1 / (|t.x - c| / GAME_SHAPE.x))
               else a) := by
          simp [pawAccum, hlt]
        rw [hstep]
        exact ih t.x _ (fun _ => pawStep_accel c t a htc) hne
    · rw [if_neg hlt] at hne ⊢
      have hstep : pawAccum c (t :: rest) (some |m - c|) a =
          pawAccum c rest (some |m - c|) a := by
        simp [pawAccum, hlt]
      rw [hstep]
      exact ih m a ha hne

/-- Amended C6: among the retained touches the first one attaining the
minimal x-distance to the paddle's center determines the acceleration
(ties go to the first encountered) WHEN that nearest touch is off-center;
when a touch sits exactly at the center x it wins the scan but leaves the
acceleration accumulator at whatever the scan had already set, so the
touch contribution is zero (friction only) exactly in the case that the
center touch is the first retained touch. -/
theorem paw_nearest_touch_determines :
    (∀ (p : Paw) (area : GameArea) (raw : List Vec2) (m : ℚ),
      firstMinX p.rect.center.x (retainedTouches p.paw_side area raw) = some m →
      m ≠ p.rect.center.x →
      pawAccelOf p area raw =
        accelToward p.rect.center.x m + p.velocity.x * PAW_FRICTION) ∧
    (∀ (p : Paw) (area : GameArea) (raw : List Vec2) (t : Vec2)
      (rest : List Vec2),
      retainedTouches p.paw_side area raw = t :: rest →
      t.x = p.rect.center.x →
      pawAccelOf p area raw = p.velocity.x * PAW_FRICTION) := by
  constructor
  · intro p area raw m hm hne
    rw [pawAccelOf]
    cases hr : retainedTouches p.paw_side area raw with
    | nil => rw [hr] at hm; simp [firstMinX] at hm
    | cons t rest =>
      rw [hr] at hm
      simp only [firstMinX, Option.some.injEq] at hm
      have hstep : touchAccel (t :: rest) p.rect.center.x =
          pawAccum p.rect.center.x rest (some |t.x - p.rect.center.x|)
            (if t.x > p.rect.center.x then
              PAW_ACCELERATION / (1 / (|t.x - p.rect.center.x| / GAME_SHAPE.x))
             else if t.x < p.rect.center.x then
              -PAW_ACCELERATION / (1 / (|t.x - p.rect.center.x| / GAME_SHAPE.x))
             else 0) := by
        simp [touchAccel, pawAccum]
      have hfin : firstMinAux p.rect.center.x t.x rest ≠ p.rect.center.x :=
        hm ▸ hne
      rw [hstep, pawAccum_tracks p.rect.center.x rest t.x _
        (fun htc => pawStep_accel p.rect.center.x t 0 htc) hfin, hm]
  · intro p area raw t rest hr ht
    rw [pawAccelOf, hr]
    have hstep : touchAccel (t :: rest) p.rect.center.x =
        pawAccum p.rect.center.x rest (some 0) 0 := by
      simp [touchAccel, pawAccum, ht]
    rw [hstep, pawAccum_stale _ _ _ _ (fun u _ => abs_nonneg _), zero_add]

/-- Witness for the amended C6: left paddle at its initial state (center
x = 95/3), identity viewport, one touch at logical x = 40. -/
theorem paw_nearest_touch_determines_witness :
    firstMinX (Paw.new .Left).rect.center.x
      (retainedTouches (Paw.new .Left).paw_side ⟨⟨0, 0, 100, 100⟩⟩
        [⟨40, 50⟩]) = some 40 ∧
    (40 : ℚ) ≠ (Paw.new .Left).rect.center.x ∧
    pawAccelOf (Paw.new .Left) ⟨⟨0, 0, 100, 100⟩⟩ [⟨40, 50⟩] =
      accelToward (Paw.new .Left).rect.center.x 40 +
        (Paw.new .Left).velocity.x * PAW_FRICTION := by
  have h1 : firstMinX (Paw.new .Left).rect.center.x
      (retainedTouches (Paw.new .Left).paw_side ⟨⟨0, 0, 100, 100⟩⟩
        [⟨40, 50⟩]) = some 40 := by
    norm_num [firstMinX, firstMinAux, retainedTouches, keepTouch,
      GameArea.screen_to_game, Vec2.sub_def, Vec2.div_def, Vec2.mul_def,
      List.filter, GAME_SHAPE, Paw.new, Rect.center, PAW_SHAPE]
  have h2 : (40 : ℚ) ≠ (Paw.new .Left).rect.center.x := by
    norm_num [Paw.new, Rect.center, PAW_SHAPE]
  exact ⟨h1, h2,
    paw_nearest_touch_determines.1 (Paw.new .Left) ⟨⟨0, 0, 100, 100⟩⟩
      [⟨40, 50⟩] 40 h1 h2⟩

/-- Counterexample to C6 as stated: paddle centered at x = 40, touches at
x = 45 then x = 40 (both retained untouched by the identity viewport).
The nearest touch is exactly at the center, yet the touch contribution is
the stale 1/4 set by the farther touch — not zero. -/
theorem paw_center_touch_stale :
    firstMinX (Paw.mk ⟨100 / 3, 80, 40 / 3, 20⟩ ⟨0, 0⟩ .Left).rect.center.x
      (retainedTouches (Paw.mk ⟨100 / 3, 80, 40 / 3, 20⟩ ⟨0, 0⟩ .Left).paw_side
        ⟨⟨0, 0, 100, 100⟩⟩ [⟨45, 50⟩, ⟨40, 50⟩]) =
      some ((Paw.mk ⟨100 / 3, 80, 40 / 3, 20⟩ ⟨0, 0⟩ .Left).rect.center.x) ∧
    pawAccelOf (Paw.mk ⟨100 / 3, 80, 40 / 3, 20⟩ ⟨0, 0⟩ .Left)
      ⟨⟨0, 0, 100, 100⟩⟩ [⟨45, 50⟩, ⟨40, 50⟩] = 1 / 4 ∧
    ((1 : ℚ) / 4 ≠ 0) := by
  refine ⟨?_, ?_, by norm_num⟩ <;>
  · norm_num [firstMinX, firstMinAux, pawAccelOf, touchAccel, pawAccum,
      retainedTouches, keepTouch, GameArea.screen_to_game, Vec2.sub_def,
      Vec2.div_def, Vec2.mul_def, List.filter, GAME_SHAPE, Rect.center,
      PAW_SHAPE, PAW_ACCELERATION, PAW_FRICTION,
      abs_of_nonneg (show (0 : ℚ) ≤ 5 by norm_num)]
